import Mathlib

/-!
Verification development for `scripts/generate-inference-report.py`, the
cross-platform inference throughput report generator.

The Python source is shallowly embedded:
* numeric values (`float` in Python) are modelled as exact rationals `ℚ`;
  every arithmetic operation the claims exercise (`/ 1000`, `words / dur`,
  `audio / dur`, `chart_w * (v / max)`) is exact at the inputs the claims
  name, so the rational model is faithful there;
* strings are Lean `String`s; the README patcher works on `List Char` so
  that first-occurrence splitting can be reasoned about;
* file I/O is replaced by explicit input values (`FileOutcome` for the
  per-model `result.json` read, an `Option` for the audio duration), and
  `json.loads` is an explicit `parse` parameter (`none` = parse failure);
* the SVG writer returns the list of emitted lines as an inductive
  `SvgLine` (one constructor per f-string template in the source, carrying
  the interpolated values) instead of writing a file.
-/

namespace Report

/-- The apostrophe character (ASCII 39). -/
def apos : Char := Char.ofNat 39

/-- Character class of the regex `[A-Za-z0-9']` used by `count_words`:
ASCII letters, digits, and the apostrophe. -/
def isWordChar (c : Char) : Bool :=
  (('A' ≤ c && c ≤ 'Z') || ('a' ≤ c && c ≤ 'z') || ('0' ≤ c && c ≤ '9') || c == apos)

/-- Helper for `count_words`: scans the character list counting maximal
runs of word characters; the flag records whether the previous character
was a word character. This is the semantics of
`len(re.findall(r"[A-Za-z0-9']+", text))`. -/
def countWordsAux : List Char → Bool → Nat
  | [], _ => 0
  | c :: rest, inWord =>
    if isWordChar c then (if inWord then 0 else 1) + countWordsAux rest true
    else countWordsAux rest false

/-- `count_words(text)` from the source: the number of maximal runs of
characters matching `[A-Za-z0-9']` in `text`. -/
def count_words (text : String) : Nat := countWordsAux text.data false

/-- Modelled from the spec: an independent characterisation of the word
count as "the number of maximal runs of ASCII letters, digits, and
apostrophes": the number of positions that start such a run, computed by
pairing each character with its predecessor flag. -/
def specRunCount (text : String) : Nat :=
  let bs := text.data.map isWordChar
  ((bs.zip (false :: bs)).countP (fun p => p.1 && !p.2))

/-- A raw `result.json` payload: the fields the script reads, each
optional (`none` models both a missing key and a JSON `null`/falsy value
where the source collapses the two via `or`). -/
structure Payload where
  model_id : Option String := none
  engine : Option String := none
  pass : Option Bool := none
  error : Option String := none
  transcript : Option String := none
  duration_ms : Option ℚ := none
deriving DecidableEq, Repr

/-- The normalized entry dictionary built by `_entry_from_payload`. -/
structure NormalizedEntry where
  model_id : String
  engine : String
  pass : Bool
  error : Option String
  transcript : String
  word_count : Nat
  duration_ms : ℚ
  duration_sec : ℚ
  tokens_per_second : ℚ
  realtime_factor : Option ℚ
deriving DecidableEq, Repr

/-- `_entry_from_payload(model_id, payload, audio_duration)`: derives a
`NormalizedEntry` from a raw payload (or its absence). Mirrors the source
line by line, including the Python truthiness tests (`or`-defaulting of
falsy values, the `audio_duration and duration_sec > 0` guard). -/
def entry_from_payload (model_id : String) (payload : Option Payload)
    (audio_duration : Option ℚ) : NormalizedEntry :=
  match payload with
  | none =>
    { model_id := model_id
      engine := ""
      pass := false
      error := some "missing result.json"
      transcript := ""
      word_count := 0
      duration_ms := 0
      duration_sec := 0
      tokens_per_second := 0
      realtime_factor := none }
  | some p =>
    let transcript := p.transcript.getD ""
    let duration_ms := p.duration_ms.getD 0
    let duration_sec := if duration_ms > 0 then duration_ms / 1000 else 0
    let words := count_words transcript
    let tps := if duration_sec > 0 then (words : ℚ) / duration_sec else 0
    let rtf : Option ℚ :=
      match audio_duration with
      | none => none
      | some a => if a ≠ 0 ∧ duration_sec > 0 then some (a / duration_sec) else none
    { model_id := match p.model_id with
        | none => model_id
        | some s => if s = "" then model_id else s
      engine := p.engine.getD ""
      pass := p.pass.getD false
      error := p.error
      transcript := transcript
      word_count := words
      duration_ms := duration_ms
      duration_sec := duration_sec
      tokens_per_second := tps
      realtime_factor := rtf }

/-- The three outcomes of reading `<base>/<model_id>/result.json`:
the file is absent, reading it raises, or it yields text. -/
inductive FileOutcome where
  | absent
  | unreadable
  | content (text : String)
deriving DecidableEq

/-- `_load_result(path)`: returns the parsed payload, or `none` when the
file is absent, unreadable, or its text fails to parse. The JSON parser
is an explicit collaborator `parse` (`none` = `json.loads` raised). -/
def load_result (parse : String → Option Payload) : FileOutcome → Option Payload
  | .absent => none
  | .unreadable => none
  | .content t => parse t

/-- A load that the loader must treat as missing: absent file, unreadable
file, or text on which the parse fails. -/
def LoadFailure (parse : String → Option Payload) (f : FileOutcome) : Prop :=
  f = .absent ∨ f = .unreadable ∨ ∃ t, f = .content t ∧ parse t = none

/-- `collect_platform_results`: one entry per model in the canonical
order, from each model's file outcome. -/
def collect_platform_results (parse : String → Option Payload)
    (fs : String → FileOutcome) (model_order : List String)
    (audio_duration : Option ℚ) : List NormalizedEntry :=
  model_order.map (fun m => entry_from_payload m (load_result parse (fs m)) audio_duration)

/-- Round a rational to the nearest integer, ties to even — the rounding
used by Python `format` for `.Nf` (on the exact value). -/
def roundHalfEven (q : ℚ) : ℤ :=
  let f := ⌊q⌋
  let r := q - f
  if r < 1/2 then f
  else if 1/2 < r then f + 1
  else if f % 2 = 0 then f else f + 1

/-- Left-pad a numeral string with zeros to width `d`. -/
def leftPad (s : String) (d : Nat) : String :=
  String.mk (List.replicate (d - s.length) '0') ++ s

/-- Fixed-point rendering of a rational with `d` decimal places, the
model of Python `f"{value:.df}"`. -/
def fmtFixed (q : ℚ) (d : Nat) : String :=
  let n := roundHalfEven (q * ((10 : ℚ) ^ d))
  let m := n.natAbs
  let base := 10 ^ d
  let sign := if n < 0 then "-" else ""
  if d = 0 then sign ++ toString (m / base)
  else sign ++ toString (m / base) ++ "." ++ leftPad (toString (m % base)) d

/-- `fmt_float(value, digits)`: `"n/a"` for `None`, else fixed-point. -/
def fmt_float (value : Option ℚ) (digits : Nat := 2) : String :=
  match value with
  | none => "n/a"
  | some q => fmtFixed q digits

/-- `html.escape` on a single character (quote=True default). -/
def escChar (c : Char) : String :=
  if c == '&' then "&amp;"
  else if c == '<' then "&lt;"
  else if c == '>' then "&gt;"
  else if c == '"' then "&quot;"
  else if c == apos then "&#x27;"
  else String.mk [c]

/-- `html.escape(s)`. -/
def htmlEscape (s : String) : String := String.join (s.data.map escChar)

/-- Insert an entry into a list already sorted by `tokens_per_second`
descending, after every strictly larger element and before equal ones —
the insertion step of a stable descending sort. -/
def insertDesc (e : NormalizedEntry) : List NormalizedEntry → List NormalizedEntry
  | [] => [e]
  | x :: xs =>
    if e.tokens_per_second < x.tokens_per_second then x :: insertDesc e xs
    else e :: x :: xs

/-- The model of `measured.sort(key=lambda e: e["tokens_per_second"],
reverse=True)`: Python `list.sort` is stable, so the embedding is the
stable sort by `tokens_per_second` descending with input order preserved
among ties. -/
def sortDesc : List NormalizedEntry → List NormalizedEntry
  | [] => []
  | e :: es => insertDesc e (sortDesc es)

/-- One emitted line of the SVG document. Each constructor corresponds to
exactly one `lines.append(f"...")` template in `write_svg_chart`,
carrying the interpolated values (coordinates as exact rationals, text
already escaped/formatted as in the source). -/
inductive SvgLine where
  | svgOpen (width height : ℚ)
  | styleLine (s : String)
  | bgRect
  | titleText (s : String)
  | axisRule (x1 y1 x2 y2 : ℚ)
  | tickMark (x y1 y2 : ℚ)
  | tickText (x y : ℚ) (s : String)
  | noData (x y : ℚ) (s : String)
  | barLabel (x y : ℚ) (s : String)
  | barRect (x y w h : ℚ) (color : String)
  | valueText (x y : ℚ) (s : String)
  | svgClose
deriving DecidableEq, Repr

/-- `chart_w = width - left - right = 1280 - 320 - 180`. -/
def chartW : ℚ := 1280 - 320 - 180

/-- `height = top + max(1, len(measured)) * (bar_h + gap) + 80`. -/
def heightFor (barCount : Nat) : ℚ := 90 + ((max 1 barCount : ℕ) : ℚ) * (24 + 10) + 80

/-- `max(e["tokens_per_second"] for e in measured)`, with the `1.0` floor
for an empty list taken from the `else` branch of the source. -/
def maxTps : List NormalizedEntry → ℚ
  | [] => 1
  | e :: es => es.foldl (fun a x => max a x.tokens_per_second) e.tokens_per_second

/-- One iteration of the tick loop: a tick mark plus its label, for tick
index `i` (the source iterates `i in range(ticks + 1)` with `ticks = 5`). -/
def tickPair (max_tps height : ℚ) (i : Nat) : List SvgLine :=
  let value := max_tps * ((i : ℚ) / 5)
  let x := 320 + chartW * ((i : ℚ) / 5)
  [.tickMark x (height - 42) (height - 36),
   .tickText x (height - 14) (fmtFixed value 1)]

/-- The bar loop (`for idx, entry in enumerate(measured)`), with the
running index made explicit. -/
def barsAux (max_tps : ℚ) : Nat → List NormalizedEntry → List SvgLine
  | _, [] => []
  | idx, e :: rest =>
    let y : ℚ := 90 + (idx : ℚ) * (24 + 10)
    let bar_w := chartW * (e.tokens_per_second / max_tps)
    let color := if e.pass then "#2563eb" else "#9ca3af"
    [.barLabel (320 - 14) (y + 24 - 6) (htmlEscape e.model_id),
     .barRect 320 y bar_w 24 color,
     .valueText (320 + bar_w + 8) (y + 24 - 6) (htmlEscape (fmtFixed e.tokens_per_second 2 ++ " tok/s"))]
    ++ barsAux max_tps (idx + 1) rest

/-- The measured filter: `duration_sec > 0 and tokens_per_second > 0`. -/
def measuredOf (entries : List NormalizedEntry) : List NormalizedEntry :=
  entries.filter (fun e => decide (0 < e.duration_sec) && decide (0 < e.tokens_per_second))

/-- The fixed prologue of the SVG document (first 12 appended lines:
opening tag, style block, background, title, and the two baseline
rules). -/
def chartHeader (title : String) (height : ℚ) : List SvgLine :=
  [.svgOpen 1280 height,
   .styleLine "<style>",
   .styleLine "text \x7b font-family: -apple-system, BlinkMacSystemFont, Segoe UI, Helvetica, Arial, sans-serif; \x7d",
   .styleLine ".title \x7b font-size: 28px; font-weight: 700; fill: #1f2937; \x7d",
   .styleLine ".axis \x7b font-size: 13px; fill: #4b5563; \x7d",
   .styleLine ".label \x7b font-size: 13px; fill: #111827; \x7d",
   .styleLine ".value \x7b font-size: 12px; fill: #111827; font-weight: 600; \x7d",
   .styleLine "</style>",
   .bgRect,
   .titleText (htmlEscape title),
   .axisRule 320 (90 - 12) 320 (height - 42),
   .axisRule 320 (height - 42) (1280 - 180 + 12) (height - 42)]

/-- The tick loop output: `for i in range(ticks + 1)` with `ticks = 5`. -/
def chartTicks (max_tps height : ℚ) : List SvgLine :=
  (List.range (5 + 1)).flatMap (tickPair max_tps height)

/-- The data section: the placeholder when nothing was measured,
otherwise one label/bar/value triple per sorted measured entry. -/
def chartBody (max_tps : ℚ) (sorted : List NormalizedEntry) : List SvgLine :=
  if sorted.isEmpty then [.noData 320 (90 + 20) "No measured results found."]
  else barsAux max_tps 0 sorted

/-- `write_svg_chart(path, title, entries)`, returning the emitted line
list instead of writing the file. -/
def write_svg_chart (title : String) (entries : List NormalizedEntry) : List SvgLine :=
  let sorted := sortDesc (measuredOf entries)
  let height := heightFor sorted.length
  let max_tps := maxTps sorted
  chartHeader title height ++ chartTicks max_tps height ++ chartBody max_tps sorted
    ++ [.svgClose]

/-- Recognizer for tick-mark lines (stroke `#9ca3af` in the source). -/
def isTickMark : SvgLine → Bool
  | .tickMark _ _ _ => true
  | _ => false

/-- Recognizer for tick-label lines. -/
def isTickText : SvgLine → Bool
  | .tickText _ _ _ => true
  | _ => false

/-- Recognizer for the two baseline rules (stroke `#d1d5db`). -/
def isAxisRule : SvgLine → Bool
  | .axisRule _ _ _ _ => true
  | _ => false

/-- Recognizer for bar rectangles. -/
def isBarRect : SvgLine → Bool
  | .barRect _ _ _ _ _ => true
  | _ => false

/-- Recognizer for bar labels (the model identifier column). -/
def isBarLabel : SvgLine → Bool
  | .barLabel _ _ _ => true
  | _ => false

/-- Recognizer for the "No measured results found." placeholder. -/
def isNoData : SvgLine → Bool
  | .noData _ _ _ => true
  | _ => false

/-- The text carried by a label-like line (empty for the others). -/
def lineText : SvgLine → String
  | .tickText _ _ s => s
  | .noData _ _ s => s
  | .barLabel _ _ s => s
  | .valueText _ _ s => s
  | .titleText s => s
  | .styleLine s => s
  | _ => ""

/-- One row of the markdown table, from the body of the entry loop of
`platform_table_md` (both the `duration_sec <= 0` shortcut row and the
formatted row). -/
def rowOf (e : NormalizedEntry) : String :=
  let pass_label := if e.pass then "PASS" else "FAIL"
  let engineCell := if e.engine = "" then "-" else e.engine
  if e.duration_sec ≤ 0 then
    "| `" ++ e.model_id ++ "` | " ++ engineCell ++ " | 0 | n/a | n/a | n/a | " ++ pass_label ++ " |"
  else
    "| `" ++ e.model_id ++ "` | " ++ engineCell ++ " | " ++ toString e.word_count ++ " | " ++
      fmt_float (some e.duration_sec) 2 ++ " | " ++ fmt_float (some e.tokens_per_second) 2 ++ " | " ++
      fmt_float e.realtime_factor 2 ++ " | " ++ pass_label ++ " |"

/-- The line list built by `platform_table_md`. -/
def platform_table_lines (title : String) (entries : List NormalizedEntry) : List String :=
  ["#### " ++ title, "",
   "| Model | Engine | Words | Duration (s) | Tok/s | RTF | Pass |",
   "|---|---|---:|---:|---:|---:|---|"]
  ++ entries.map rowOf ++ [""]

/-- `platform_table_md(title, entries)`: the joined markdown section. -/
def platform_table_md (title : String) (entries : List NormalizedEntry) : String :=
  String.intercalate "\n" (platform_table_lines title entries)

/-- Split a character list at the first occurrence of the pattern `p`:
`some (before, after)` with the input equal to `before ++ p ++ after` and
no occurrence of `p` inside `before`; `none` when `p` does not occur.
This is the semantics of Python `s.split(p)[0]` / `s.split(p, 1)[1]` and
`p in s`. -/
def splitFirst (p : List Char) : List Char → Option (List Char × List Char)
  | [] => if p.isPrefixOf ([] : List Char) then some ([], []) else none
  | c :: t =>
    if p.isPrefixOf (c :: t) then some ([], (c :: t).drop p.length)
    else (splitFirst p t).map (fun ab => (c :: ab.1, ab.2))

/-- Python `p in s` (substring containment). -/
def containsSub (p s : List Char) : Bool := (splitFirst p s).isSome

/-- The number of positions at which `p` occurs in the list (counting
overlapping occurrences). -/
def countOccs (p : List Char) : List Char → Nat
  | [] => 0
  | c :: t => (if p.isPrefixOf (c :: t) then 1 else 0) + countOccs p t

/-- `"<!-- BENCHMARK_RESULTS_START -->"`. -/
def startMarker : List Char := "<!-- BENCHMARK_RESULTS_START -->".data

/-- `"<!-- BENCHMARK_RESULTS_END -->"`. -/
def endMarker : List Char := "<!-- BENCHMARK_RESULTS_END -->".data

/-- `if text and not text.endswith("\n"): text += "\n"`. -/
def ensureNl (text : List Char) : List Char :=
  if text = [] then text
  else if text.getLast? = some '\n' then text
  else text ++ ['\n']

/-- `wrapped = f"{start}\n{block}\n{end}\n"`. -/
def wrappedBlock (block : List Char) : List Char :=
  startMarker ++ '\n' :: block ++ '\n' :: endMarker ++ ['\n']

/-- `update_readme_section(readme_path, block)`: the text written back,
as a function of the text read (`none` = the file does not exist). -/
def update_readme_section (text0 : Option (List Char)) (block : List Char) : List Char :=
  let text := text0.getD []
  if containsSub startMarker text && containsSub endMarker text then
    let pre := ((splitFirst startMarker text).getD ([], [])).1
    let suf := ((splitFirst endMarker text).getD ([], [])).2
    pre ++ wrappedBlock block ++ suf.dropWhile (· == '\n')
  else
    ensureNl text ++ '\n' :: wrappedBlock block

/-- Documents on which the patcher is idempotent-safe: either neither
marker occurs, or both occur and no end marker occurs before the first
start marker. -/
def goodDoc (text : List Char) : Bool :=
  match splitFirst startMarker text, splitFirst endMarker text with
  | some (a, _), some _ => !(containsSub endMarker a)
  | none, none => true
  | _, _ => false

/-- An occurrence of the pattern `p` spanning the junction of `x ++ y`:
`p` splits into a nonempty suffix of `x` followed by a nonempty
run into `y`. First-occurrence splitting distributes over `x ++ y`
exactly when no such spanning occurrence exists. -/
def Spans (p x y : List Char) : Prop :=
  ∃ u v, p = u ++ v ∧ u ≠ [] ∧ v ≠ [] ∧ u <:+ x ∧ v <+: y

/-- The tokenization test string `Hello, world! It` + apostrophe + `s 2 o`
+ apostrophe + `clock.` from the spec (apostrophes built via `apos`). -/
def helloSample : String := String.mk
  (['H','e','l','l','o',',',' ','w','o','r','l','d','!',' ','I','t'] ++ [apos] ++
   ['s',' ','2',' ','o'] ++ [apos] ++ ['c','l','o','c','k','.'])

/-- A transcript with exactly 8 word tokens. -/
def eightWords : String := "a b c d e f g h"

/-- A payload whose transcript has three words but whose duration is
missing, so the derived entry has `duration_sec = 0` with a nonzero
word count. -/
def c3payload : Payload := { transcript := some "a b c" }

/-- The entry derived from `c3payload`. -/
def c3entry : NormalizedEntry := entry_from_payload "m" (some c3payload) none

/-- A measured entry used to exercise the chart bar path. -/
def chartEntry : NormalizedEntry :=
  { model_id := "m1", engine := "", pass := true, error := none, transcript := "",
    word_count := 0, duration_ms := 1000, duration_sec := 1, tokens_per_second := 3,
    realtime_factor := none }

/-- The `height` local of `write_svg_chart` as a function of the input. -/
def chartHeightOf (entries : List NormalizedEntry) : ℚ :=
  heightFor (sortDesc (measuredOf entries)).length

/-- The `max_tps` local of `write_svg_chart` as a function of the input. -/
def chartMaxOf (entries : List NormalizedEntry) : ℚ :=
  maxTps (sortDesc (measuredOf entries))

/-- The width carried by a bar rectangle (0 for other lines). -/
def barW : SvgLine → ℚ
  | .barRect _ _ w _ _ => w
  | _ => 0

/- ### Lemmas about word counting -/

theorem countWordsAux_eq_countP (l : List Char) (prev : Bool) :
    countWordsAux l prev =
      (((l.map isWordChar).zip (prev :: l.map isWordChar)).countP (fun p => p.1 && !p.2)) := by
  induction l generalizing prev with
  | nil => simp [countWordsAux]
  | cons c t ih =>
    simp only [countWordsAux, List.map_cons, List.zip_cons_cons, List.countP_cons, ih]
    cases hb : isWordChar c
    · cases prev <;> simp [hb]
    · cases prev
      · simp [hb, Nat.add_comm]
      · simp [hb]

/- ### Lemmas about the chart renderer -/

theorem insertDesc_perm (e : NormalizedEntry) (l : List NormalizedEntry) :
    (insertDesc e l).Perm (e :: l) := by
  induction l with
  | nil => exact List.Perm.refl _
  | cons x xs ih =>
    rw [insertDesc]
    split
    · exact (ih.cons x).trans (List.Perm.swap e x xs)
    · exact List.Perm.refl _

theorem sortDesc_perm (l : List NormalizedEntry) : (sortDesc l).Perm l := by
  induction l with
  | nil => exact List.Perm.refl _
  | cons e es ih => exact (insertDesc_perm e (sortDesc es)).trans (ih.cons e)

theorem insertDesc_pairwise (e : NormalizedEntry) (l : List NormalizedEntry)
    (h : l.Pairwise (fun a b => b.tokens_per_second ≤ a.tokens_per_second)) :
    (insertDesc e l).Pairwise (fun a b => b.tokens_per_second ≤ a.tokens_per_second) := by
  induction l with
  | nil => simp [insertDesc]
  | cons x xs ih =>
    rw [List.pairwise_cons] at h
    obtain ⟨hx, hxs⟩ := h
    rw [insertDesc]
    split
    case isTrue hlt =>
      rw [List.pairwise_cons]
      refine ⟨?_, ih hxs⟩
      intro y hy
      rcases List.mem_cons.mp ((insertDesc_perm e xs).mem_iff.mp hy) with rfl | hy2
      · exact le_of_lt hlt
      · exact hx y hy2
    case isFalse hge =>
      rw [List.pairwise_cons]
      refine ⟨?_, List.pairwise_cons.mpr ⟨hx, hxs⟩⟩
      intro y hy
      rcases List.mem_cons.mp hy with rfl | hy2
      · exact not_lt.mp hge
      · exact le_trans (hx y hy2) (not_lt.mp hge)

theorem sortDesc_pairwise (l : List NormalizedEntry) :
    (sortDesc l).Pairwise (fun a b => b.tokens_per_second ≤ a.tokens_per_second) := by
  induction l with
  | nil => simp [sortDesc]
  | cons e es ih => exact insertDesc_pairwise e (sortDesc es) ih

theorem insertDesc_filter_key (q : ℚ) (e : NormalizedEntry) (l : List NormalizedEntry) :
    (insertDesc e l).filter (fun x => decide (x.tokens_per_second = q))
      = if e.tokens_per_second = q
        then e :: l.filter (fun x => decide (x.tokens_per_second = q))
        else l.filter (fun x => decide (x.tokens_per_second = q)) := by
  induction l with
  | nil =>
    by_cases he : e.tokens_per_second = q <;> simp [insertDesc, he]
  | cons x xs ih =>
    rw [insertDesc]
    split
    case isTrue hlt =>
      by_cases he : e.tokens_per_second = q
      · have hx : ¬ (x.tokens_per_second = q) := by
          rw [← he]; exact ne_of_gt hlt
        simp [List.filter_cons, hx, he, ih]
      · simp [List.filter_cons, he, ih]
    case isFalse hge =>
      by_cases he : e.tokens_per_second = q <;> simp [List.filter_cons, he]

theorem sortDesc_filter_key (q : ℚ) (l : List NormalizedEntry) :
    (sortDesc l).filter (fun x => decide (x.tokens_per_second = q))
      = l.filter (fun x => decide (x.tokens_per_second = q)) := by
  induction l with
  | nil => rfl
  | cons e es ih =>
    rw [sortDesc, insertDesc_filter_key]
    by_cases he : e.tokens_per_second = q <;> simp [List.filter_cons, he, ih]

theorem le_foldl_max (b : ℚ) (xs : List NormalizedEntry) :
    b ≤ xs.foldl (fun a x => max a x.tokens_per_second) b := by
  induction xs generalizing b with
  | nil => exact le_refl b
  | cons y ys ih => exact le_trans (le_max_left b y.tokens_per_second) (ih _)

theorem mem_le_foldl_max (e : NormalizedEntry) (xs : List NormalizedEntry) (b : ℚ)
    (h : e ∈ xs) :
    e.tokens_per_second ≤ xs.foldl (fun a x => max a x.tokens_per_second) b := by
  induction xs generalizing b with
  | nil => cases h
  | cons y ys ih =>
    rcases List.mem_cons.mp h with rfl | h2
    · exact le_trans (le_max_right b e.tokens_per_second) (le_foldl_max _ ys)
    · exact ih _ h2

theorem le_maxTps (e : NormalizedEntry) (l : List NormalizedEntry) (h : e ∈ l) :
    e.tokens_per_second ≤ maxTps l := by
  cases l with
  | nil => cases h
  | cons x xs =>
    rw [maxTps]
    rcases List.mem_cons.mp h with rfl | h2
    · exact le_foldl_max _ xs
    · exact mem_le_foldl_max _ xs _ h2

theorem maxTps_pos (l : List NormalizedEntry)
    (h : ∀ e ∈ l, 0 < e.tokens_per_second) : 0 < maxTps l := by
  cases l with
  | nil => norm_num [maxTps]
  | cons x xs =>
    rw [maxTps]
    exact lt_of_lt_of_le (h x (List.mem_cons_self x xs)) (le_foldl_max _ xs)

theorem barsAux_filter_tickMark (mt : ℚ) (i : Nat) (l : List NormalizedEntry) :
    (barsAux mt i l).filter isTickMark = [] := by
  induction l generalizing i with
  | nil => rfl
  | cons e rest ih => simp [barsAux, List.filter_cons, isTickMark, ih]

theorem barsAux_filter_tickText (mt : ℚ) (i : Nat) (l : List NormalizedEntry) :
    (barsAux mt i l).filter isTickText = [] := by
  induction l generalizing i with
  | nil => rfl
  | cons e rest ih => simp [barsAux, List.filter_cons, isTickText, ih]

theorem barsAux_filter_axisRule (mt : ℚ) (i : Nat) (l : List NormalizedEntry) :
    (barsAux mt i l).filter isAxisRule = [] := by
  induction l generalizing i with
  | nil => rfl
  | cons e rest ih => simp [barsAux, List.filter_cons, isAxisRule, ih]

theorem barsAux_countP_noData (mt : ℚ) (i : Nat) (l : List NormalizedEntry) :
    (barsAux mt i l).countP isNoData = 0 := by
  induction l generalizing i with
  | nil => rfl
  | cons e rest ih => simp [barsAux, List.countP_cons, isNoData, ih]

theorem barsAux_labels (mt : ℚ) (i : Nat) (l : List NormalizedEntry) :
    ((barsAux mt i l).filter isBarLabel).map lineText
      = l.map (fun e => htmlEscape e.model_id) := by
  induction l generalizing i with
  | nil => rfl
  | cons e rest ih => simp [barsAux, List.filter_cons, isBarLabel, lineText, ih]

theorem barsAux_countP_barRect (mt : ℚ) (i : Nat) (l : List NormalizedEntry) :
    (barsAux mt i l).countP isBarRect = l.length := by
  induction l generalizing i with
  | nil => rfl
  | cons e rest ih => simp [barsAux, List.countP_cons, isBarRect, ih]

theorem barsAux_barRect_width (mt : ℚ) (i : Nat) (l : List NormalizedEntry)
    (el : SvgLine) (hmem : el ∈ barsAux mt i l) (hbar : isBarRect el = true) :
    ∃ e ∈ l, barW el = chartW * (e.tokens_per_second / mt) := by
  induction l generalizing i with
  | nil => cases hmem
  | cons e rest ih =>
    rw [barsAux] at hmem
    simp only [List.cons_append, List.nil_append, List.mem_cons] at hmem
    rcases hmem with rfl | rfl | rfl | hmem2
    · cases hbar
    · exact ⟨e, List.mem_cons_self e rest, rfl⟩
    · cases hbar
    · obtain ⟨e2, h2, hw⟩ := ih _ hmem2
      exact ⟨e2, List.mem_cons_of_mem e h2, hw⟩

theorem chartHeader_filter_tickMark (t : String) (h : ℚ) :
    (chartHeader t h).filter isTickMark = [] := rfl

theorem chartHeader_filter_tickText (t : String) (h : ℚ) :
    (chartHeader t h).filter isTickText = [] := rfl

theorem chartHeader_filter_axisRule (t : String) (h : ℚ) :
    (chartHeader t h).filter isAxisRule
      = [SvgLine.axisRule 320 (90 - 12) 320 (h - 42),
         SvgLine.axisRule 320 (h - 42) (1280 - 180 + 12) (h - 42)] := rfl

theorem chartHeader_filter_barLabel (t : String) (h : ℚ) :
    (chartHeader t h).filter isBarLabel = [] := rfl

theorem chartHeader_filter_barRect (t : String) (h : ℚ) :
    (chartHeader t h).filter isBarRect = [] := rfl

theorem chartHeader_countP_barRect (t : String) (h : ℚ) :
    (chartHeader t h).countP isBarRect = 0 := rfl

theorem chartHeader_countP_noData (t : String) (h : ℚ) :
    (chartHeader t h).countP isNoData = 0 := rfl

theorem chartTicks_filter_tickMark (mt h : ℚ) :
    (chartTicks mt h).filter isTickMark
      = (List.range 6).map (fun i =>
          SvgLine.tickMark (320 + chartW * ((i : ℚ) / 5)) (h - 42) (h - 36)) := rfl

theorem chartTicks_filter_tickText (mt h : ℚ) :
    (chartTicks mt h).filter isTickText
      = (List.range 6).map (fun i =>
          SvgLine.tickText (320 + chartW * ((i : ℚ) / 5)) (h - 14)
            (fmtFixed (mt * ((i : ℚ) / 5)) 1)) := rfl

theorem chartTicks_filter_axisRule (mt h : ℚ) :
    (chartTicks mt h).filter isAxisRule = [] := rfl

theorem chartTicks_filter_barLabel (mt h : ℚ) :
    (chartTicks mt h).filter isBarLabel = [] := rfl

theorem chartTicks_filter_barRect (mt h : ℚ) :
    (chartTicks mt h).filter isBarRect = [] := rfl

theorem chartTicks_countP_barRect (mt h : ℚ) :
    (chartTicks mt h).countP isBarRect = 0 := rfl

theorem chartTicks_countP_noData (mt h : ℚ) :
    (chartTicks mt h).countP isNoData = 0 := rfl

theorem chartBody_filter_tickMark (mt : ℚ) (s : List NormalizedEntry) :
    (chartBody mt s).filter isTickMark = [] := by
  rw [chartBody]
  split
  · rfl
  · exact barsAux_filter_tickMark mt 0 s

theorem chartBody_filter_tickText (mt : ℚ) (s : List NormalizedEntry) :
    (chartBody mt s).filter isTickText = [] := by
  rw [chartBody]
  split
  · rfl
  · exact barsAux_filter_tickText mt 0 s

theorem chartBody_filter_axisRule (mt : ℚ) (s : List NormalizedEntry) :
    (chartBody mt s).filter isAxisRule = [] := by
  rw [chartBody]
  split
  · rfl
  · exact barsAux_filter_axisRule mt 0 s

theorem chartBody_labels (mt : ℚ) (s : List NormalizedEntry) :
    ((chartBody mt s).filter isBarLabel).map lineText
      = s.map (fun e => htmlEscape e.model_id) := by
  rw [chartBody]
  split
  case isTrue h =>
    rw [List.isEmpty_iff.mp h]
    rfl
  case isFalse h =>
    exact barsAux_labels mt 0 s

theorem chartBody_countP_barRect (mt : ℚ) (s : List NormalizedEntry) :
    (chartBody mt s).countP isBarRect = s.length := by
  rw [chartBody]
  split
  case isTrue h =>
    rw [List.isEmpty_iff.mp h]
    rfl
  case isFalse h =>
    exact barsAux_countP_barRect mt 0 s

theorem chartBody_countP_noData (mt : ℚ) (s : List NormalizedEntry) :
    (chartBody mt s).countP isNoData = (if s = [] then 1 else 0) := by
  rw [chartBody]
  split
  case isTrue h =>
    rw [if_pos (List.isEmpty_iff.mp h)]
    rfl
  case isFalse h =>
    rw [if_neg (fun hc => h (List.isEmpty_iff.mpr hc))]
    exact barsAux_countP_noData mt 0 s

theorem chartBody_barRect_width (mt : ℚ) (s : List NormalizedEntry) (el : SvgLine)
    (hmem : el ∈ chartBody mt s) (hbar : isBarRect el = true) :
    ∃ e ∈ s, barW el = chartW * (e.tokens_per_second / mt) := by
  rw [chartBody] at hmem
  rcases hs : s.isEmpty with _ | _
  · rw [hs] at hmem
    simp only [Bool.false_eq_true, if_false] at hmem
    exact barsAux_barRect_width mt 0 s el hmem hbar
  · rw [hs] at hmem
    simp only [if_true] at hmem
    rcases List.mem_singleton.mp hmem with rfl
    cases hbar

/- ### Claim theorems: metrics derivation -/

/-- C2: for every model identifier, when the result file is absent,
unreadable, or holds text that fails to parse, the loader returns `none`
(all three indistinguishable) and the derived entry is the canonical
empty entry with `duration_sec = 0`, `tokens_per_second = 0`,
`realtime_factor = none`, `error = "missing result.json"`. -/
theorem load_failure_yields_canonical_empty_entry
    (parse : String → Option Payload) (m : String) (a : Option ℚ)
    (f : FileOutcome) (h : LoadFailure parse f) :
    load_result parse f = none ∧
    (entry_from_payload m (load_result parse f) a).duration_sec = 0 ∧
    (entry_from_payload m (load_result parse f) a).tokens_per_second = 0 ∧
    (entry_from_payload m (load_result parse f) a).realtime_factor = none ∧
    (entry_from_payload m (load_result parse f) a).error = some "missing result.json" := by
  have hn : load_result parse f = none := by
    rcases h with h | h | ⟨t, ht, hp⟩
    · subst h; rfl
    · subst h; rfl
    · subst ht; simpa [load_result] using hp
  rw [hn]
  exact ⟨rfl, rfl, rfl, rfl, rfl⟩

/-- Witness for C2 at a concrete failing parse. -/
theorem load_failure_yields_canonical_empty_entry_witness :
    load_result (fun _ => none) (.content "not json") = none ∧
    (entry_from_payload "whisper-tiny" (load_result (fun _ => none) (.content "not json"))
        (some 10)).duration_sec = 0 ∧
    (entry_from_payload "whisper-tiny" (load_result (fun _ => none) (.content "not json"))
        (some 10)).tokens_per_second = 0 ∧
    (entry_from_payload "whisper-tiny" (load_result (fun _ => none) (.content "not json"))
        (some 10)).realtime_factor = none ∧
    (entry_from_payload "whisper-tiny" (load_result (fun _ => none) (.content "not json"))
        (some 10)).error = some "missing result.json" :=
  load_failure_yields_canonical_empty_entry (fun _ => none) "whisper-tiny" (some 10)
    (.content "not json") (Or.inr (Or.inr ⟨"not json", rfl, rfl⟩))

/-- C4 counterexample: a payload whose `model_id` contradicts the
requested identifier wins — the entry carries the payload value, not the
requested one, refuting the claim that the requested id is used whenever
the payload contradicts it. -/
theorem payload_model_id_overrides_requested :
    (entry_from_payload "whisper-tiny" (some { model_id := some "other" }) none).model_id
      = "other" ∧ ("other" : String) ≠ "whisper-tiny" := by
  constructor
  · rfl
  · decide

/-- C4 amended: the entry's `model_id` equals the requested identifier
exactly when the payload omits the field or provides an empty value;
a non-empty payload `model_id` is used as-is even when it contradicts
the requested identifier. -/
theorem entry_model_id_default (m : String) (p : Payload) (a : Option ℚ) :
    ((p.model_id = none ∨ p.model_id = some "") →
      (entry_from_payload m (some p) a).model_id = m) ∧
    (∀ s, p.model_id = some s → s ≠ "" →
      (entry_from_payload m (some p) a).model_id = s) := by
  constructor
  · rintro (h | h) <;> simp [entry_from_payload, h]
  · intro s hs hne
    simp [entry_from_payload, hs, hne]

/-- Witness for C4's amended theorem at concrete inputs. -/
theorem entry_model_id_default_witness :
    (entry_from_payload "req" (some { model_id := some "x" }) none).model_id = "x" :=
  (entry_model_id_default "req" { model_id := some "x" } none).2 "x" rfl (by decide)

/-- C6 counterexample: a negative audio duration is truthy in Python, so
`realtime_factor` is computed from it rather than being `null` as the
claim requires for a non-positive audio duration. -/
theorem negative_audio_duration_gives_rtf :
    ¬ ((-3 : ℚ) > 0) ∧
    (entry_from_payload "m" (some { duration_ms := some 6000 }) (some (-3))).realtime_factor
      = some (-(1 : ℚ) / 2) := by
  constructor
  · norm_num
  · show (if (-3 : ℚ) ≠ 0 ∧ ((6000 : ℚ) / 1000) > 0 then
        some ((-3 : ℚ) / ((6000 : ℚ) / 1000)) else none) = some (-(1 : ℚ) / 2)
    norm_num

/-- C6 amended: `realtime_factor = audio / duration_sec` exactly when the
audio duration is present and nonzero (Python truthiness, not
positivity) and `duration_sec > 0`; it is `none` when the audio duration
is absent or zero, or when `duration_sec = 0`; and the spec's two
examples hold: audio `10` with `duration_ms = 5000` gives `2`, absent
audio gives `none`. -/
theorem realtime_factor_cases (m : String) (p : Payload) (oa : Option ℚ) :
    (oa = none → (entry_from_payload m (some p) oa).realtime_factor = none) ∧
    (∀ a, oa = some a → a ≠ 0 → 0 < (entry_from_payload m (some p) oa).duration_sec →
      (entry_from_payload m (some p) oa).realtime_factor
        = some (a / (entry_from_payload m (some p) oa).duration_sec)) ∧
    (∀ a, oa = some a → a = 0 →
      (entry_from_payload m (some p) oa).realtime_factor = none) ∧
    (∀ a, oa = some a → (entry_from_payload m (some p) oa).duration_sec ≤ 0 →
      (entry_from_payload m (some p) oa).realtime_factor = none) ∧
    (entry_from_payload "m" (some { duration_ms := some 5000 }) (some 10)).realtime_factor
      = some 2 := by
  refine ⟨?_, ?_, ?_, ?_, ?_⟩
  · rintro rfl; rfl
  · rintro a rfl ha hd
    simp only [entry_from_payload] at hd ⊢
    rw [if_pos ⟨ha, hd⟩]
  · rintro a rfl rfl
    simp [entry_from_payload]
  · rintro a rfl hd
    simp only [entry_from_payload] at hd ⊢
    rw [if_neg]
    rintro ⟨-, hpos⟩
    exact absurd hpos (not_lt.mpr hd)
  · show (if (10 : ℚ) ≠ 0 ∧ ((5000 : ℚ) / 1000) > 0 then
        some ((10 : ℚ) / ((5000 : ℚ) / 1000)) else none) = some 2
    norm_num

/-- Witness for C6's amended theorem at concrete inputs. -/
theorem realtime_factor_cases_witness :
    (entry_from_payload "m" (some { duration_ms := some 2000 }) (some 4)).realtime_factor
      = some ((4 : ℚ) /
          (entry_from_payload "m" (some { duration_ms := some 2000 }) (some 4)).duration_sec) :=
  (realtime_factor_cases "m" { duration_ms := some 2000 } (some 4)).2.1 4 rfl
    (by norm_num) (by norm_num [entry_from_payload])

/-- C9: `count_words` equals the number of maximal runs of ASCII
letters, digits and apostrophes (the run-start count); the sample
sentence has exactly 5 tokens; and an entry with `duration_ms = 4000`
and an 8-token transcript has `tokens_per_second = 2` exactly. -/
theorem count_words_spec :
    (∀ text : String, count_words text = specRunCount text) ∧
    count_words helloSample = 5 ∧
    (∀ (m : String) (p : Payload) (a : Option ℚ),
      p.duration_ms = some 4000 →
      count_words (p.transcript.getD "") = 8 →
      (entry_from_payload m (some p) a).tokens_per_second = 2) := by
  refine ⟨?_, by decide, ?_⟩
  · intro text
    exact countWordsAux_eq_countP text.data false
  · intro m p a hd hw
    show (if ((if (p.duration_ms.getD 0 : ℚ) > 0 then (p.duration_ms.getD 0 : ℚ) / 1000 else 0)) > 0
        then ((count_words (p.transcript.getD "") : ℚ) /
          (if (p.duration_ms.getD 0 : ℚ) > 0 then (p.duration_ms.getD 0 : ℚ) / 1000 else 0))
        else 0) = 2
    rw [hd, hw]
    norm_num

/-- Witness for C9 at a concrete payload with 8 words over 4 seconds. -/
theorem count_words_spec_witness :
    (entry_from_payload "m"
        (some { transcript := some eightWords, duration_ms := some 4000 }) none).tokens_per_second
      = 2 :=
  count_words_spec.2.2 "m" { transcript := some eightWords, duration_ms := some 4000 } none
    rfl (by decide)

/-- C3 counterexample: an entry with `duration_sec = 0` but a three-word
transcript is rendered with a literal `0` in the word-count column, not
the `n/a` placeholder the claim requires for every numeric column. -/
theorem zero_duration_row_word_count_zero :
    c3entry.duration_sec = 0 ∧ c3entry.word_count = 3 ∧
    rowOf c3entry = "| `m` | - | 0 | n/a | n/a | n/a | FAIL |" ∧
    rowOf c3entry ≠ "| `m` | - | n/a | n/a | n/a | n/a | FAIL |" := by
  refine ⟨rfl, by decide, by decide, by decide⟩

/-- C3 amended: every entry's row appears in the table; a row with
`duration_sec <= 0` renders duration, tokens-per-second and real-time
factor as `n/a` but the word-count column as the literal `0`, with the
pass/fail label still shown; a row with `duration_sec > 0` renders the
word count as an integer and the three derived metrics to 2 decimal
places, with `n/a` for a null real-time factor. -/
theorem table_row_rendering (title : String) (entries : List NormalizedEntry)
    (e : NormalizedEntry) (he : e ∈ entries) :
    rowOf e ∈ platform_table_lines title entries ∧
    (e.duration_sec ≤ 0 →
      rowOf e = "| `" ++ e.model_id ++ "` | " ++ (if e.engine = "" then "-" else e.engine) ++
        " | 0 | n/a | n/a | n/a | " ++ (if e.pass then "PASS" else "FAIL") ++ " |") ∧
    (0 < e.duration_sec →
      rowOf e = "| `" ++ e.model_id ++ "` | " ++ (if e.engine = "" then "-" else e.engine) ++
        " | " ++ toString e.word_count ++ " | " ++ fmtFixed e.duration_sec 2 ++ " | " ++
        fmtFixed e.tokens_per_second 2 ++ " | " ++
        (match e.realtime_factor with | none => "n/a" | some r => fmtFixed r 2) ++ " | " ++
        (if e.pass then "PASS" else "FAIL") ++ " |") := by
  refine ⟨?_, ?_, ?_⟩
  · unfold platform_table_lines
    simp only [List.mem_append, List.mem_map]
    exact Or.inl (Or.inr ⟨e, he, rfl⟩)
  · intro hle
    rw [rowOf, if_pos hle]
  · intro hlt
    rw [rowOf, if_neg (not_le.mpr hlt)]
    cases e.realtime_factor <;> rfl

/-- Witness for C3's amended theorem at a concrete zero-duration entry. -/
theorem table_row_rendering_witness :
    rowOf c3entry ∈ platform_table_lines "T" [c3entry] ∧
    rowOf c3entry = "| `" ++ c3entry.model_id ++ "` | " ++
      (if c3entry.engine = "" then "-" else c3entry.engine) ++
      " | 0 | n/a | n/a | n/a | " ++ (if c3entry.pass then "PASS" else "FAIL") ++ " |" :=
  ⟨(table_row_rendering "T" [c3entry] c3entry (by decide)).1,
   (table_row_rendering "T" [c3entry] c3entry (by decide)).2.1 (by decide)⟩

/- ### Claim theorems: chart renderer -/

/-- C5 counterexample: the tick loop runs `range(ticks + 1)` with
`ticks = 5`, so the rendered axis has 6 tick marks (and 6 labels), not
the claimed exactly 5, already on the empty entry list. -/
theorem chart_has_six_ticks_not_five :
    (write_svg_chart "t" []).countP isTickMark = 6 ∧
    (write_svg_chart "t" []).countP isTickText = 6 ∧
    ¬ ((write_svg_chart "t" []).countP isTickMark = 5) := by
  refine ⟨by decide, by decide, by decide⟩

/-- C5 amended: for every input entry list the value axis has exactly 6
tick marks at equal intervals from 0 to `max_value` inclusive (dividing
the axis into 5 equal parts), each labeled with its numeric value to 1
decimal place, plus exactly the two baseline rules (vertical at the left
margin, horizontal at the chart bottom). -/
theorem chart_axis_structure (title : String) (entries : List NormalizedEntry) :
    (write_svg_chart title entries).filter isTickMark
      = (List.range 6).map (fun i =>
          SvgLine.tickMark (320 + chartW * ((i : ℚ) / 5))
            (chartHeightOf entries - 42) (chartHeightOf entries - 36)) ∧
    (write_svg_chart title entries).filter isTickText
      = (List.range 6).map (fun i =>
          SvgLine.tickText (320 + chartW * ((i : ℚ) / 5)) (chartHeightOf entries - 14)
            (fmtFixed (chartMaxOf entries * ((i : ℚ) / 5)) 1)) ∧
    (write_svg_chart title entries).filter isAxisRule
      = [SvgLine.axisRule 320 (90 - 12) 320 (chartHeightOf entries - 42),
         SvgLine.axisRule 320 (chartHeightOf entries - 42) (1280 - 180 + 12)
           (chartHeightOf entries - 42)] := by
  refine ⟨?_, ?_, ?_⟩ <;>
    simp only [write_svg_chart, chartHeightOf, chartMaxOf, List.filter_append,
      chartHeader_filter_tickMark, chartHeader_filter_tickText, chartHeader_filter_axisRule,
      chartTicks_filter_tickMark, chartTicks_filter_tickText, chartTicks_filter_axisRule,
      chartBody_filter_tickMark, chartBody_filter_tickText, chartBody_filter_axisRule,
      List.filter_cons, List.filter_nil, List.nil_append, List.append_nil, isTickMark,
      isTickText, isAxisRule, Bool.false_eq_true, if_false]

/-- C7: the chart draws bars for exactly the measured entries
(`duration_sec > 0` and `tokens_per_second > 0`), ranked by
`tokens_per_second` descending with input order as the tie break; an
unmeasured entry never yields a bar, and an entry list with no measured
entry yields zero bars and the placeholder label. -/
theorem chart_bar_selection (title : String) (entries : List NormalizedEntry) :
    (∀ e, e ∈ measuredOf entries ↔
      (e ∈ entries ∧ 0 < e.duration_sec ∧ 0 < e.tokens_per_second)) ∧
    (sortDesc (measuredOf entries)).Perm (measuredOf entries) ∧
    (sortDesc (measuredOf entries)).Pairwise
      (fun a b => b.tokens_per_second ≤ a.tokens_per_second) ∧
    (∀ q : ℚ, (sortDesc (measuredOf entries)).filter (fun e => decide (e.tokens_per_second = q))
      = (measuredOf entries).filter (fun e => decide (e.tokens_per_second = q))) ∧
    ((write_svg_chart title entries).filter isBarLabel).map lineText
      = (sortDesc (measuredOf entries)).map (fun e => htmlEscape e.model_id) ∧
    (write_svg_chart title entries).countP isBarRect = (measuredOf entries).length ∧
    (write_svg_chart title entries).countP isNoData
      = (if measuredOf entries = [] then 1 else 0) := by
  have hlen : (sortDesc (measuredOf entries)).length = (measuredOf entries).length :=
    (sortDesc_perm (measuredOf entries)).length_eq
  have hempty : (sortDesc (measuredOf entries) = []) ↔ (measuredOf entries = []) := by
    rw [← List.length_eq_zero, ← List.length_eq_zero, hlen]
  refine ⟨?_, sortDesc_perm _, sortDesc_pairwise _,
    (fun q => sortDesc_filter_key q (measuredOf entries)), ?_, ?_, ?_⟩
  · intro e
    rw [measuredOf, List.mem_filter]
    simp [decide_eq_true_iff]
  · simp only [write_svg_chart, List.filter_append, List.map_append,
      chartHeader_filter_barLabel, chartTicks_filter_barLabel, List.filter_cons,
      List.filter_nil, isBarLabel, Bool.false_eq_true, if_false, List.nil_append,
      List.append_nil, chartBody_labels]
  · simp only [write_svg_chart, List.countP_append, chartHeader_countP_barRect,
      chartTicks_countP_barRect, chartBody_countP_barRect, List.countP_cons,
      List.countP_nil, isBarRect, Bool.false_eq_true, if_false, hlen]
    omega
  · simp only [write_svg_chart, List.countP_append, chartHeader_countP_noData,
      chartTicks_countP_noData, chartBody_countP_noData, List.countP_cons,
      List.countP_nil, isNoData, Bool.false_eq_true, if_false]
    rw [if_congr hempty rfl rfl]
    omega

/-- C10 (implicit): every rendered bar's width
`chart_w * (tokens_per_second / max_value)` is at most
`chart_w = 1280 - 320 - 180 = 780`, because `max_value` is the maximum
`tokens_per_second` over the measured set; no bar overflows the right
margin. -/
theorem chart_bar_width_bounded (title : String) (entries : List NormalizedEntry) :
    chartW = 780 ∧
    ((write_svg_chart title entries).filter isBarRect).all
      (fun el => decide (barW el ≤ chartW)) = true := by
  have hcw : chartW = 780 := by norm_num [chartW]
  refine ⟨hcw, ?_⟩
  rw [List.all_eq_true]
  intro el hel
  rw [List.mem_filter] at hel
  obtain ⟨hmem, hbar⟩ := hel
  rw [decide_eq_true_iff]
  simp only [write_svg_chart, List.mem_append] at hmem
  rcases hmem with ((hmem | hmem) | hmem) | hmem
  · have : el ∈ (chartHeader title (heightFor (sortDesc (measuredOf entries)).length)).filter
        isBarRect := List.mem_filter.mpr ⟨hmem, hbar⟩
    rw [chartHeader_filter_barRect] at this
    cases this
  · have : el ∈ (chartTicks (maxTps (sortDesc (measuredOf entries)))
        (heightFor (sortDesc (measuredOf entries)).length)).filter isBarRect :=
      List.mem_filter.mpr ⟨hmem, hbar⟩
    rw [chartTicks_filter_barRect] at this
    cases this
  · obtain ⟨e, he, hw⟩ := chartBody_barRect_width _ _ el hmem hbar
    have hpos : ∀ x ∈ sortDesc (measuredOf entries), 0 < x.tokens_per_second := by
      intro x hx
      have hx2 : x ∈ measuredOf entries := (sortDesc_perm _).mem_iff.mp hx
      rw [measuredOf, List.mem_filter] at hx2
      have := hx2.2
      simp only [Bool.and_eq_true, decide_eq_true_iff] at this
      exact this.2
    have hmax : 0 < maxTps (sortDesc (measuredOf entries)) := maxTps_pos _ hpos
    have hle : e.tokens_per_second ≤ maxTps (sortDesc (measuredOf entries)) :=
      le_maxTps e _ he
    rw [hw]
    calc chartW * (e.tokens_per_second / maxTps (sortDesc (measuredOf entries)))
        ≤ chartW * 1 := by
          apply mul_le_mul_of_nonneg_left _ (by rw [hcw]; norm_num)
          exact (div_le_one hmax).mpr hle
      _ = chartW := mul_one _
  · rcases List.mem_singleton.mp hmem with rfl
    cases hbar

/- ### Lemmas about substring splitting (Document Patcher) -/

theorem splitFirst_nil (p : List Char) (hp : p ≠ []) : splitFirst p [] = none := by
  cases p with
  | nil => exact absurd rfl hp
  | cons c t => rfl

theorem containsSub_nil (p : List Char) (hp : p ≠ []) : containsSub p [] = false := by
  rw [containsSub, splitFirst_nil p hp]
  rfl

theorem containsSub_of_isPrefixOf {p s : List Char} (h : p.isPrefixOf s = true) :
    containsSub p s = true := by
  cases s with
  | nil => rw [containsSub, splitFirst, if_pos h]; rfl
  | cons c t => rw [containsSub, splitFirst, if_pos h]; rfl

theorem containsSub_cons_false {p : List Char} {c : Char} {t : List Char}
    (h : containsSub p (c :: t) = false) : containsSub p t = false := by
  rw [containsSub] at h ⊢
  by_cases hpre : p.isPrefixOf (c :: t) = true
  · rw [splitFirst, if_pos hpre] at h
    cases h
  · rw [splitFirst, if_neg hpre] at h
    cases hsp : splitFirst p t with
    | none => rfl
    | some ab =>
      rw [hsp] at h
      cases h

theorem splitFirst_eq_append {p s a b : List Char} (hp : p ≠ [])
    (h : splitFirst p s = some (a, b)) : s = a ++ p ++ b := by
  induction s generalizing a b with
  | nil =>
    rw [splitFirst_nil p hp] at h
    cases h
  | cons c t ih =>
    by_cases hpre : p.isPrefixOf (c :: t) = true
    · rw [splitFirst, if_pos hpre] at h
      obtain ⟨u, hu⟩ := List.isPrefixOf_iff_prefix.mp hpre
      rw [Option.some.injEq, Prod.mk.injEq] at h
      obtain ⟨ha, hbv⟩ := h
      rw [← ha, ← hbv, List.nil_append, ← hu, List.drop_left]
    · rw [splitFirst, if_neg hpre] at h
      cases hsp : splitFirst p t with
      | none =>
        rw [hsp] at h
        cases h
      | some ab =>
        obtain ⟨a2, b2⟩ := ab
        rw [hsp, Option.map_some', Option.some.injEq, Prod.mk.injEq] at h
        obtain ⟨ha, hbv⟩ := h
        rw [← ha, ← hbv]
        have := ih hsp
        rw [List.cons_append, List.cons_append, ← this]

theorem splitFirst_fst_not_contains {p s a b : List Char} (hp : p ≠ [])
    (h : splitFirst p s = some (a, b)) : containsSub p a = false := by
  induction s generalizing a b with
  | nil =>
    rw [splitFirst_nil p hp] at h
    cases h
  | cons c t ih =>
    by_cases hpre : p.isPrefixOf (c :: t) = true
    · rw [splitFirst, if_pos hpre] at h
      rw [Option.some.injEq, Prod.mk.injEq] at h
      rw [← h.1]
      exact containsSub_nil p hp
    · rw [splitFirst, if_neg hpre] at h
      cases hsp : splitFirst p t with
      | none =>
        rw [hsp] at h
        cases h
      | some ab =>
        obtain ⟨a2, b2⟩ := ab
        rw [hsp, Option.map_some', Option.some.injEq, Prod.mk.injEq] at h
        rw [← h.1]
        have hrec : containsSub p a2 = false := ih hsp
        have hside : ¬ (p.isPrefixOf (c :: a2) = true) := by
          intro hcontra
          apply hpre
          apply List.isPrefixOf_iff_prefix.mpr
          have h2 : t = a2 ++ p ++ b2 := splitFirst_eq_append hp hsp
          have hpref : p <+: (c :: a2) := List.isPrefixOf_iff_prefix.mp hcontra
          refine hpref.trans ?_
          rw [h2]
          exact ⟨p ++ b2, by simp⟩
        rw [containsSub, splitFirst, if_neg hside]
        cases hq : splitFirst p a2 with
        | none => rfl
        | some x =>
          rw [containsSub, hq] at hrec
          cases hrec

theorem prefix_split {p x y : List Char} (hx : x ≠ []) (hspan : ¬ Spans p x y)
    (h : p <+: x ++ y) : p <+: x := by
  rcases le_or_lt p.length x.length with hle | hlt
  · exact List.prefix_of_prefix_length_le h (List.prefix_append x y) hle
  · exfalso
    have hxp : x <+: p :=
      List.prefix_of_prefix_length_le (List.prefix_append x y) h (le_of_lt hlt)
    obtain ⟨w, hw⟩ := hxp
    have hwne : w ≠ [] := by
      intro h0
      rw [h0, List.append_nil] at hw
      rw [← hw] at hlt
      exact lt_irrefl _ hlt
    obtain ⟨t2, ht2⟩ := h
    rw [← hw, List.append_assoc] at ht2
    have hwt : w ++ t2 = y := by
      have := congrArg (List.drop x.length) ht2
      rwa [List.drop_left, List.drop_left] at this
    exact hspan ⟨x, w, hw.symm, hx, hwne, List.suffix_refl x, ⟨t2, hwt⟩⟩

theorem not_spans_newline {p : List Char} (x y : List Char) (hnl : '\n' ∉ p) :
    ¬ Spans p x ('\n' :: y) := by
  rintro ⟨u, v, hp, hu, hv, hux, hvy⟩
  obtain ⟨w, hw⟩ := hvy
  cases v with
  | nil => exact hv rfl
  | cons a v2 =>
    rw [List.cons_append] at hw
    have ha : a = '\n' := (List.cons.injEq a _ '\n' y).mp hw |>.1
    apply hnl
    rw [hp]
    exact List.mem_append_right u (ha ▸ List.mem_cons_self a v2)

theorem not_spans_left_nl {p : List Char} (y : List Char) (hnl : '\n' ∉ p) :
    ¬ Spans p ['\n'] y := by
  rintro ⟨u, v, hp, hu, hv, hux, hvy⟩
  obtain ⟨t2, ht2⟩ := hux
  cases u with
  | nil => exact hu rfl
  | cons a u2 =>
    cases t2 with
    | nil =>
      rw [List.nil_append] at ht2
      have ha : a = '\n' := (List.cons.injEq a u2 '\n' []).mp ht2 |>.1
      apply hnl
      rw [hp]
      exact List.mem_append_left _ (ha ▸ List.mem_cons_self a u2)
    | cons b t3 =>
      have := congrArg List.length ht2
      simp at this

theorem not_spans_concrete {p m : List Char} (x y : List Char)
    (hlen : p.length ≤ m.length)
    (hk : ∀ k, k < p.length → 0 < k → ¬ (p.drop k <+: m)) :
    ¬ Spans p x (m ++ y) := by
  rintro ⟨u, v, hp, hu, hv, hux, hvy⟩
  have hul : 0 < u.length := List.length_pos.mpr hu
  have hvl : 0 < v.length := List.length_pos.mpr hv
  have hplen : p.length = u.length + v.length := by rw [hp, List.length_append]
  have hvp : v = p.drop u.length := by rw [hp, List.drop_left]
  have hvm : v <+: m := by
    obtain ⟨w, hw⟩ := hvy
    have hv2 : v = (m ++ y).take v.length := by
      rw [← hw, List.take_left]
    rw [hv2, List.take_append_eq_append_take]
    have h0 : v.length - m.length = 0 := by omega
    rw [h0, List.take_zero, List.append_nil]
    exact List.take_prefix _ m
  exact hk u.length (by omega) hul (hvp ▸ hvm)

theorem splitFirst_append_left {p : List Char} (x y : List Char) (_hp : p ≠ [])
    (hx : containsSub p x = false) (hs : ¬ Spans p x y) :
    splitFirst p (x ++ y) = (splitFirst p y).map (fun ab => (x ++ ab.1, ab.2)) := by
  induction x with
  | nil =>
    rw [List.nil_append]
    cases h : splitFirst p y with
    | none => rfl
    | some ab => simp
  | cons c x' ih =>
    have hx' : containsSub p x' = false := containsSub_cons_false hx
    have hs' : ¬ Spans p x' y := by
      rintro ⟨u, v, h1, h2, h3, h4, h5⟩
      obtain ⟨t2, ht2⟩ := h4
      exact hs ⟨u, v, h1, h2, h3, ⟨c :: t2, by rw [List.cons_append, ht2]⟩, h5⟩
    have hpre : ¬ (p.isPrefixOf (c :: (x' ++ y)) = true) := by
      intro hcontra
      have hsplit : p <+: (c :: x') :=
        prefix_split (List.cons_ne_nil c x') hs (List.isPrefixOf_iff_prefix.mp hcontra)
      have := containsSub_of_isPrefixOf (List.isPrefixOf_iff_prefix.mpr hsplit)
      rw [hx] at this
      cases this
    rw [List.cons_append, splitFirst, if_neg hpre, ih hx' hs']
    cases splitFirst p y with
    | none => rfl
    | some ab => rfl

theorem splitFirst_self (p y : List Char) : splitFirst p (p ++ y) = some ([], y) := by
  have hpre : p.isPrefixOf (p ++ y) = true :=
    List.isPrefixOf_iff_prefix.mpr (List.prefix_append p y)
  cases hpy : p ++ y with
  | nil =>
    obtain ⟨rfl, rfl⟩ := List.append_eq_nil.mp hpy
    rfl
  | cons c t =>
    rw [hpy] at hpre
    rw [splitFirst, if_pos hpre, ← hpy, List.drop_left]

theorem splitFirst_nl_cons {p : List Char} (t : List Char) (hp : p ≠ []) (hnl : '\n' ∉ p) :
    splitFirst p ('\n' :: t) = (splitFirst p t).map (fun ab => ('\n' :: ab.1, ab.2)) := by
  have hpre : ¬ (p.isPrefixOf ('\n' :: t) = true) := by
    intro hcontra
    obtain ⟨w, hw⟩ := List.isPrefixOf_iff_prefix.mp hcontra
    cases p with
    | nil => exact hp rfl
    | cons a p2 =>
      rw [List.cons_append] at hw
      have ha : a = '\n' := (List.cons.injEq a _ '\n' t).mp hw |>.1
      exact hnl (ha ▸ List.mem_cons_self a p2)
  rw [splitFirst, if_neg hpre]

theorem containsSub_append_left {p : List Char} (x y : List Char) (hp : p ≠ [])
    (hx : containsSub p x = false) (hs : ¬ Spans p x y) :
    containsSub p (x ++ y) = containsSub p y := by
  rw [containsSub, containsSub, splitFirst_append_left x y hp hx hs]
  cases splitFirst p y with
  | none => rfl
  | some ab => rfl

theorem containsSub_single_nl {p : List Char} (hp : p ≠ []) (hnl : '\n' ∉ p) :
    containsSub p ['\n'] = false := by
  rw [containsSub, splitFirst_nl_cons [] hp hnl, splitFirst_nil p hp]
  rfl

theorem containsSub_ensureNl {p t : List Char} (hp : p ≠ []) (hnl : '\n' ∉ p)
    (h : containsSub p t = false) : containsSub p (ensureNl t) = false := by
  rw [ensureNl]
  split
  · exact h
  · split
    · exact h
    · rw [containsSub_append_left t ['\n'] hp h (not_spans_newline t [] hnl)]
      exact containsSub_single_nl hp hnl

theorem countOccs_eq_zero {p s : List Char} (_hp : p ≠ []) (h : containsSub p s = false) :
    countOccs p s = 0 := by
  induction s with
  | nil => rfl
  | cons c t ih =>
    rw [countOccs]
    have hpre : ¬ (p.isPrefixOf (c :: t) = true) := by
      intro hcontra
      have := containsSub_of_isPrefixOf hcontra
      rw [h] at this
      cases this
    rw [if_neg hpre, ih (containsSub_cons_false h)]

theorem countOccs_short {p s : List Char} (h : s.length < p.length) : countOccs p s = 0 := by
  induction s with
  | nil => rfl
  | cons c t ih =>
    have hlt : t.length < p.length := by
      rw [List.length_cons] at h
      omega
    have hpre : ¬ (p.isPrefixOf (c :: t) = true) := by
      intro hcontra
      have := (List.isPrefixOf_iff_prefix.mp hcontra).length_le
      rw [List.length_cons] at h this
      omega
    rw [countOccs, if_neg hpre, ih hlt]

theorem countOccs_self {p : List Char} (hp : p ≠ []) : countOccs p p = 1 := by
  cases p with
  | nil => exact absurd rfl hp
  | cons c t =>
    rw [countOccs]
    rw [if_pos (List.isPrefixOf_iff_prefix.mpr (List.prefix_refl _))]
    rw [countOccs_short (by rw [List.length_cons]; omega)]

theorem countOccs_append_left {p : List Char} (x y : List Char) (_hp : p ≠ [])
    (hs : ¬ Spans p x y) :
    countOccs p (x ++ y) = countOccs p x + countOccs p y := by
  induction x with
  | nil =>
    rw [List.nil_append, countOccs]
    omega
  | cons c x' ih =>
    have hs' : ¬ Spans p x' y := by
      rintro ⟨u, v, h1, h2, h3, h4, h5⟩
      obtain ⟨t2, ht2⟩ := h4
      exact hs ⟨u, v, h1, h2, h3, ⟨c :: t2, by rw [List.cons_append, ht2]⟩, h5⟩
    have hind : p.isPrefixOf (c :: (x' ++ y)) = p.isPrefixOf (c :: x') := by
      cases hcx : p.isPrefixOf (c :: x') with
      | true =>
        obtain ⟨w, hw⟩ := List.isPrefixOf_iff_prefix.mp hcx
        apply List.isPrefixOf_iff_prefix.mpr
        refine ⟨w ++ y, ?_⟩
        rw [← List.append_assoc, hw, List.cons_append]
      | false =>
        cases hcy : p.isPrefixOf (c :: (x' ++ y)) with
        | false => rfl
        | true =>
          exfalso
          have hsp : p <+: (c :: x') :=
            prefix_split (List.cons_ne_nil c x') hs (List.isPrefixOf_iff_prefix.mp hcy)
          have := List.isPrefixOf_iff_prefix.mpr hsp
          rw [hcx] at this
          cases this
    rw [List.cons_append, countOccs, hind, ih hs']
    rw [countOccs]
    omega

theorem dropWhile_nl_idem (l : List Char) :
    (l.dropWhile (· == '\n')).dropWhile (· == '\n') = l.dropWhile (· == '\n') := by
  induction l with
  | nil => rfl
  | cons c t ih =>
    by_cases hc : (c == '\n') = true
    · rw [List.dropWhile_cons, if_pos hc]
      exact ih
    · rw [List.dropWhile_cons, if_neg hc, List.dropWhile_cons, if_neg hc]

/- ### Concrete facts about the sentinel markers -/

theorem startMarker_ne_nil : startMarker ≠ [] := by decide

theorem endMarker_ne_nil : endMarker ≠ [] := by decide

theorem nl_not_mem_startMarker : '\n' ∉ startMarker := by decide

theorem nl_not_mem_endMarker : '\n' ∉ endMarker := by decide

theorem endMarker_not_in_startMarker : containsSub endMarker startMarker = false := by decide

theorem startMarker_not_in_endMarker : containsSub startMarker endMarker = false := by decide

theorem startMarker_no_border :
    ∀ k, k < startMarker.length → 0 < k → ¬ (startMarker.drop k <+: startMarker) := by decide

theorem endMarker_drop_not_in_startMarker :
    ∀ k, k < endMarker.length → 0 < k → ¬ (endMarker.drop k <+: startMarker) := by decide

theorem endMarker_length_le : endMarker.length ≤ startMarker.length := by decide

theorem countOccs_block (p E s : List Char) (hp : p ≠ []) (hp2 : 1 < p.length)
    (hnl : '\n' ∉ p) (hE : containsSub p E = false) (hs : containsSub p s = false) :
    countOccs p (E ++ '\n' :: (startMarker ++ '\n' :: (s ++ '\n' :: (endMarker ++ ['\n']))))
      = countOccs p startMarker + countOccs p endMarker := by
  have hshort : countOccs p ['\n'] = 0 := countOccs_short (by simpa using hp2)
  rw [countOccs_append_left E _ hp (not_spans_newline E _ hnl), countOccs_eq_zero hp hE]
  rw [show ('\n' :: (startMarker ++ '\n' :: (s ++ '\n' :: (endMarker ++ ['\n']))))
      = ['\n'] ++ (startMarker ++ '\n' :: (s ++ '\n' :: (endMarker ++ ['\n']))) from rfl]
  rw [countOccs_append_left ['\n'] _ hp (not_spans_left_nl _ hnl), hshort]
  rw [countOccs_append_left startMarker _ hp (not_spans_newline startMarker _ hnl)]
  rw [show ('\n' :: (s ++ '\n' :: (endMarker ++ ['\n'])))
      = ['\n'] ++ (s ++ '\n' :: (endMarker ++ ['\n'])) from rfl]
  rw [countOccs_append_left ['\n'] _ hp (not_spans_left_nl _ hnl), hshort]
  rw [countOccs_append_left s _ hp (not_spans_newline s _ hnl), countOccs_eq_zero hp hs]
  rw [show ('\n' :: (endMarker ++ ['\n'])) = ['\n'] ++ (endMarker ++ ['\n']) from rfl]
  rw [countOccs_append_left ['\n'] _ hp (not_spans_left_nl _ hnl), hshort]
  rw [countOccs_append_left endMarker ['\n'] hp (not_spans_newline endMarker [] hnl), hshort]
  omega

/-- Core of the idempotence proof, over the raw text (the `none`
document is the empty text). -/
theorem patch_idempotent_core (text block : List Char)
    (hd : goodDoc text = true) (hb : containsSub endMarker block = false) :
    update_readme_section (some (update_readme_section (some text) block)) block
      = update_readme_section (some text) block := by
  cases h1 : splitFirst startMarker text with
  | none =>
    cases h2 : splitFirst endMarker text with
    | none =>
      have hcs : containsSub startMarker text = false := by rw [containsSub, h1]; rfl
      have hce : containsSub endMarker text = false := by rw [containsSub, h2]; rfl
      have hR : update_readme_section (some text) block
          = ensureNl text ++ '\n' :: wrappedBlock block := by
        simp only [update_readme_section, Option.getD_some]
        rw [hcs]
        simp
      have hEs : containsSub startMarker (ensureNl text) = false :=
        containsSub_ensureNl startMarker_ne_nil nl_not_mem_startMarker hcs
      have hEe : containsSub endMarker (ensureNl text) = false :=
        containsSub_ensureNl endMarker_ne_nil nl_not_mem_endMarker hce
      have hW : wrappedBlock block
          = startMarker ++ ('\n' :: (block ++ '\n' :: (endMarker ++ ['\n']))) := by
        simp [wrappedBlock]
      have hsplit_s : splitFirst startMarker (ensureNl text ++ '\n' :: wrappedBlock block)
          = some (ensureNl text ++ ['\n'],
              '\n' :: (block ++ '\n' :: (endMarker ++ ['\n']))) := by
        rw [splitFirst_append_left (ensureNl text) _ startMarker_ne_nil hEs
            (not_spans_newline _ _ nl_not_mem_startMarker),
          splitFirst_nl_cons _ startMarker_ne_nil nl_not_mem_startMarker,
          hW, splitFirst_self]
        rfl
      have hsplit_e : splitFirst endMarker (ensureNl text ++ '\n' :: wrappedBlock block)
          = some (ensureNl text ++ '\n' :: (startMarker ++ '\n' :: (block ++ ['\n'])),
              ['\n']) := by
        rw [splitFirst_append_left (ensureNl text) _ endMarker_ne_nil hEe
            (not_spans_newline _ _ nl_not_mem_endMarker),
          splitFirst_nl_cons _ endMarker_ne_nil nl_not_mem_endMarker,
          hW,
          splitFirst_append_left startMarker _ endMarker_ne_nil endMarker_not_in_startMarker
            (not_spans_newline _ _ nl_not_mem_endMarker),
          splitFirst_nl_cons _ endMarker_ne_nil nl_not_mem_endMarker,
          splitFirst_append_left block _ endMarker_ne_nil hb
            (not_spans_newline _ _ nl_not_mem_endMarker),
          splitFirst_nl_cons _ endMarker_ne_nil nl_not_mem_endMarker,
          splitFirst_self]
        rfl
      rw [hR]
      simp only [update_readme_section, Option.getD_some, containsSub]
      rw [hsplit_s, hsplit_e]
      simp only [Option.isSome_some, Bool.and_self, if_true, Option.getD_some]
      show (ensureNl text ++ ['\n']) ++ wrappedBlock block
          ++ List.dropWhile (· == '\n') ['\n']
        = ensureNl text ++ '\n' :: wrappedBlock block
      rw [show List.dropWhile (· == '\n') ['\n'] = [] from rfl, List.append_nil,
        List.append_assoc]
      rfl
    | some ab =>
      rw [goodDoc, h1, h2] at hd
      cases hd
  | some ar =>
    obtain ⟨a, r⟩ := ar
    cases h2 : splitFirst endMarker text with
    | none =>
      rw [goodDoc, h1, h2] at hd
      cases hd
    | some ab =>
      obtain ⟨a2, b⟩ := ab
      simp only [goodDoc, h1, h2, Bool.not_eq_eq_eq_not, Bool.not_true] at hd
      have hae : containsSub endMarker a = false := hd
      have has : containsSub startMarker a = false :=
        splitFirst_fst_not_contains startMarker_ne_nil h1
      have hR : update_readme_section (some text) block
          = a ++ (wrappedBlock block ++ List.dropWhile (· == '\n') b) := by
        simp only [update_readme_section, Option.getD_some, containsSub]
        rw [h1, h2]
        simp [List.append_assoc]
      have hWb : wrappedBlock block ++ List.dropWhile (· == '\n') b
          = startMarker ++ ('\n' :: (block ++ '\n'
              :: (endMarker ++ '\n' :: List.dropWhile (· == '\n') b))) := by
        simp [wrappedBlock, List.append_assoc]
      have hsplit_s : splitFirst startMarker
          (a ++ (wrappedBlock block ++ List.dropWhile (· == '\n') b))
          = some (a, '\n' :: (block ++ '\n'
              :: (endMarker ++ '\n' :: List.dropWhile (· == '\n') b))) := by
        rw [hWb,
          splitFirst_append_left a _ startMarker_ne_nil has
            (not_spans_concrete a _ (le_refl _) startMarker_no_border),
          splitFirst_self]
        simp
      have hsplit_e : splitFirst endMarker
          (a ++ (wrappedBlock block ++ List.dropWhile (· == '\n') b))
          = some (a ++ (startMarker ++ '\n' :: (block ++ ['\n'])),
              '\n' :: List.dropWhile (· == '\n') b) := by
        rw [hWb,
          splitFirst_append_left a _ endMarker_ne_nil hae
            (not_spans_concrete a _ endMarker_length_le endMarker_drop_not_in_startMarker),
          splitFirst_append_left startMarker _ endMarker_ne_nil endMarker_not_in_startMarker
            (not_spans_newline _ _ nl_not_mem_endMarker),
          splitFirst_nl_cons _ endMarker_ne_nil nl_not_mem_endMarker,
          splitFirst_append_left block _ endMarker_ne_nil hb
            (not_spans_newline _ _ nl_not_mem_endMarker),
          splitFirst_nl_cons _ endMarker_ne_nil nl_not_mem_endMarker,
          splitFirst_self]
        rfl
      rw [hR]
      simp only [update_readme_section, Option.getD_some, containsSub]
      rw [hsplit_s, hsplit_e]
      simp only [Option.isSome_some, Bool.and_self, if_true, Option.getD_some]
      show a ++ wrappedBlock block
          ++ List.dropWhile (· == '\n') ('\n' :: List.dropWhile (· == '\n') b)
        = a ++ (wrappedBlock block ++ List.dropWhile (· == '\n') b)
      rw [List.dropWhile_cons, if_pos (by rfl), dropWhile_nl_idem, List.append_assoc]

/- ### Claim theorems: Document Patcher -/

/-- C1 counterexample: idempotence fails when the section text itself
contains the end marker — patching the empty (absent) document with the
end-marker text and patching again changes the document further. -/
theorem patch_not_idempotent :
    update_readme_section (some (update_readme_section none endMarker)) endMarker
      ≠ update_readme_section none endMarker := by decide

/-- C1 amended: `patch(patch(D, S), S) = patch(D, S)` for every initial
document `D` (including absent) in which either neither sentinel marker
occurs or both occur with no end marker before the first start marker,
and every section text `S` that does not contain the end marker. -/
theorem patch_idempotent (d : Option (List Char)) (block : List Char)
    (hd : goodDoc (d.getD []) = true) (hb : containsSub endMarker block = false) :
    update_readme_section (some (update_readme_section d block)) block
      = update_readme_section d block := by
  have hrw : update_readme_section d block = update_readme_section (some (d.getD [])) block :=
    rfl
  rw [hrw]
  exact patch_idempotent_core (d.getD []) block hd hb

/-- Witness for C1's amended theorem: a marker-free document and section. -/
theorem patch_idempotent_witness :
    update_readme_section
        (some (update_readme_section (some "hello".data) "world".data)) "world".data
      = update_readme_section (some "hello".data) "world".data :=
  patch_idempotent (some "hello".data) "world".data (by decide) (by decide)

/-- C8 counterexample: when the section text contains the start marker,
the appended result contains two start-marker occurrences, not exactly
one. -/
theorem patch_append_two_start_markers :
    countOccs startMarker (update_readme_section (some []) startMarker) = 2 ∧
    ¬ (countOccs startMarker (update_readme_section (some []) startMarker) = 1) := by
  exact ⟨by decide, by decide⟩

/-- C8 amended: for every document without markers and every section
text `S` without markers, the patched result is exactly the original
content (with a trailing newline ensured), a separating blank line, and
the freshly wrapped section — so it contains exactly one start marker
and one end marker with `S` between them, the original content precedes
both markers, and the document ends with the new block. -/
theorem patch_append_path (d s : List Char)
    (h1 : containsSub startMarker d = false) (h2 : containsSub endMarker d = false)
    (h3 : containsSub startMarker s = false) (h4 : containsSub endMarker s = false) :
    update_readme_section (some d) s
      = ensureNl d ++ '\n' :: (startMarker ++ '\n' :: (s ++ '\n' :: (endMarker ++ ['\n']))) ∧
    countOccs startMarker (update_readme_section (some d) s) = 1 ∧
    countOccs endMarker (update_readme_section (some d) s) = 1 := by
  have hR : update_readme_section (some d) s
      = ensureNl d ++ '\n' :: (startMarker ++ '\n' :: (s ++ '\n' :: (endMarker ++ ['\n']))) := by
    simp only [update_readme_section, Option.getD_some]
    rw [h1]
    simp [wrappedBlock]
  refine ⟨hR, ?_, ?_⟩
  · rw [hR, countOccs_block startMarker (ensureNl d) s startMarker_ne_nil (by decide)
      nl_not_mem_startMarker
      (containsSub_ensureNl startMarker_ne_nil nl_not_mem_startMarker h1) h3]
    rw [countOccs_self startMarker_ne_nil,
      countOccs_eq_zero startMarker_ne_nil startMarker_not_in_endMarker]
  · rw [hR, countOccs_block endMarker (ensureNl d) s endMarker_ne_nil (by decide)
      nl_not_mem_endMarker
      (containsSub_ensureNl endMarker_ne_nil nl_not_mem_endMarker h2) h4]
    rw [countOccs_eq_zero endMarker_ne_nil endMarker_not_in_startMarker,
      countOccs_self endMarker_ne_nil]

/-- Witness for C8's amended theorem at a concrete document/section. -/
theorem patch_append_path_witness :
    update_readme_section (some ("doc".data)) ("sec".data)
      = ensureNl ("doc".data) ++ '\n' :: (startMarker ++ '\n'
          :: (("sec".data) ++ '\n' :: (endMarker ++ ['\n']))) ∧
    countOccs startMarker (update_readme_section (some ("doc".data)) ("sec".data)) = 1 ∧
    countOccs endMarker (update_readme_section (some ("doc".data)) ("sec".data)) = 1 :=
  patch_append_path "doc".data "sec".data (by decide) (by decide) (by decide) (by decide)

end Report
